import Mathlib

/-
Verification of the Ozone TEMPO grid-processing core.

Shallow embedding of `Server/py/tempo_to_json.py` and
`Server/py/build_tempo_forecast_summaries.py`.

Modelling conventions:
* a float value that is NaN/Inf ("missing") is `none : Option ℚ`; a finite
  float is `some (q : ℚ)` (exact rational arithmetic stands in for float64);
* a 2-D numpy array is a total function `ℕ → ℕ → Option ℚ` whose shape, where
  the code reads `.shape`, is passed alongside as explicit naturals
  (for `normalize_lon_and_align`, whose output is compared for equality,
  a `List (List (Option ℚ))` is used instead);
* a raised Python exception is `none` in an `Option` result;
* mutable accumulator loops become `List.foldl` over explicit states.
-/

/-- One cell of a grid: `none` models NaN/Inf (missing). -/
abbrev Cell := Option ℚ

/-- A 2-D array as a total function of (row, col). -/
abbrev GridF := ℕ → ℕ → Cell

/-- A 2-D array as a list of rows (used where whole-grid equality matters). -/
abbrev GridL := List (List Cell)

/-- Constant `ABSURD_NEG = -1e20` from both source files. -/
def ABSURD_NEG : ℚ := -100000000000000000000

/-- Constant `ABSURD_POS = 1e20` from both source files. -/
def ABSURD_POS : ℚ := 100000000000000000000

/-- The per-product validity domain used by `build_tempo_forecast_summaries.py`
(`SPEC` dict): allow-zero flag, minimum, maximum. -/
structure ProductSpec where
  allow_zero : Bool
  min : ℚ
  max : ℚ
deriving DecidableEq

/-- The `SPEC` dict of `build_tempo_forecast_summaries.py`
(`5e16`, `3e16` written out as integers). -/
def SPEC (p : String) : Option ProductSpec :=
  if p = "no2" then some ⟨false, 0, 50000000000000000⟩
  else if p = "hcho" then some ⟨false, 0, 30000000000000000⟩
  else if p = "o3tot" then some ⟨true, 0, 700⟩
  else if p = "cldo4" then some ⟨true, 0, 1⟩
  else none

/-- The default conservative spec used by `sanitize_grid` for unknown ids:
`{"allow_zero": False, "min": 0.0, "max": 1.0}`. -/
def defaultSpec : ProductSpec := ⟨false, 0, 1⟩

/-- Lookup `SPEC.get(product, default)` from `sanitize_grid`. -/
def spec_for (p : String) : ProductSpec := (SPEC p).getD defaultSpec

/-- The validity-domain fields of the `PRODUCTS` dict in `tempo_to_json.py`
(`uses_cloud`, `allow_zero`, `hard_min`, `hard_max`). -/
structure TempoProduct where
  uses_cloud : Bool
  allow_zero : Bool
  hard_min : ℚ
  hard_max : ℚ

/-- The `PRODUCTS` dict of `tempo_to_json.py` (plain indexing, no default:
an id outside the key set raises `KeyError`, modelled as `none`). -/
def PRODUCTS (p : String) : Option TempoProduct :=
  if p = "no2" then some ⟨true, false, 0, 50000000000000000⟩
  else if p = "hcho" then some ⟨true, false, 0, 30000000000000000⟩
  else if p = "o3tot" then some ⟨true, true, 0, 700⟩
  else if p = "cldo4" then some ⟨false, true, 0, 1⟩
  else none

/-- The per-value core shared by `sanitize_grid` and
`_sanitize_array_for_product` (their bodies are line-for-line identical):
non-finite → NaN; `v < ABSURD_NEG` or `v > ABSURD_POS` → NaN; then if
`allow_zero` is false, `v ≤ 0` → NaN, else `v < mn` is set to `mn`;
finally `v > mx` is set to `mx`.  The successive in-place masked
assignments of the Python code are sequenced as nested conditionals. -/
def sanitizeVal (allowZero : Bool) (mn mx : ℚ) : Cell → Cell
  | none => none
  | some v =>
    if v < ABSURD_NEG then none
    else if ABSURD_POS < v then none
    else if allowZero then
      some (if mx < (if v < mn then mn else v) then mx else (if v < mn then mn else v))
    else
      if v ≤ 0 then none
      else some (if mx < v then mx else v)

/-- Model of `sanitize_grid(grid, product)` from `build_tempo_forecast_summaries.py`:
looks the product up in `SPEC` with the conservative default, then applies
the element-wise sanitization. -/
def sanitize_grid (g : GridF) (p : String) : GridF :=
  fun i j =>
    sanitizeVal (spec_for p).allow_zero (spec_for p).min (spec_for p).max (g i j)

/-- Model of `_sanitize_array_for_product(arr, product)` from `tempo_to_json.py`:
`spec = PRODUCTS[product]` raises `KeyError` (here: `none`) for an unknown
id; otherwise the same element-wise sanitization. -/
def sanitize_array_for_product (g : GridF) (p : String) : Option GridF :=
  (PRODUCTS p).map (fun s =>
    fun i j => sanitizeVal s.allow_zero s.hard_min s.hard_max (g i j))

/-- Model of `np.nanmean` over a 1-D slice: the mean of the finite members only,
NaN (here `none`) when all members are missing. -/
def nanmeanQ (l : List Cell) : Cell :=
  if (l.filterMap id).isEmpty then none
  else some ((l.filterMap id).sum / ((l.filterMap id).length : ℚ))

/-- Model of `block_reduce_mean(arr, by_y, by_x)` from `tempo_to_json.py`:
trim to `H = (h//by_y)*by_y`, `W = (w//by_x)*by_x` (error when a trimmed
dimension is 0, modelled as `none`), reshape into `by_y × by_x` blocks and
take `np.nanmean(np.nanmean(d, axis=3), axis=1)`: the inner `nanmean`
averages each block row over its columns, the outer one averages those
per-row means over the block rows. -/
def block_reduce_mean (h w : ℕ) (arr : GridF) (by_y by_x : ℕ) : Option GridF :=
  if h / by_y * by_y = 0 ∨ w / by_x * by_x = 0 then none
  else some (fun i j =>
    nanmeanQ ((List.range by_y).map (fun r =>
      nanmeanQ ((List.range by_x).map (fun c => arr (i * by_y + r) (j * by_x + c))))))

/-- Modelled from the claim's words for comparison with `block_reduce_mean`:
each block value is the arithmetic mean of the finite cells of the whole
trimmed block (one flat `nanmean` over all `by_y * by_x` members). -/
def block_reduce_mean_flat (h w : ℕ) (arr : GridF) (by_y by_x : ℕ) : Option GridF :=
  if h / by_y * by_y = 0 ∨ w / by_x * by_x = 0 then none
  else some (fun i j =>
    nanmeanQ ((List.range by_y).flatMap (fun r =>
      (List.range by_x).map (fun c => arr (i * by_y + r) (j * by_x + c)))))

/-- The per-block value `block_reduce_mean` actually computes, spelled out:
the mean, over the block rows that contain at least one finite cell, of
those rows' finite-cell means. -/
def blockCellRowwise (arr : GridF) (by_y by_x i j : ℕ) : Cell :=
  let rows := (List.range by_y).map (fun r =>
    (List.range by_x).map (fun c => arr (i * by_y + r) (j * by_x + c)))
  let good := rows.filter (fun r => !(r.filterMap id).isEmpty)
  if good.isEmpty then none
  else some
    ((good.map (fun r => (r.filterMap id).sum / ((r.filterMap id).length : ℚ))).sum
      / (good.length : ℚ))

/-- Model of `np.searchsorted(xs, v)` (left side) on a sorted axis `xs`: the number
of elements strictly below `v`, i.e. the left insertion index. -/
def searchsorted (xs : List ℚ) (v : ℚ) : ℕ :=
  xs.countP (fun x => decide (x < v))

/-- Model of `reindex_to(lat_src, lon_src, src, lat_dst, lon_dst)` from
`tempo_to_json.py`: per destination point a `searchsorted` index into the
source axis, clipped to `[0, len-1]`, then a plain gather from `src`. -/
def reindex_to (lat_src lon_src : List ℚ) (src : GridF)
    (lat_dst lon_dst : List ℚ) : GridF :=
  fun i j =>
    src (min (searchsorted lat_src (lat_dst.getD i 0)) (lat_src.length - 1))
        (min (searchsorted lon_src (lon_dst.getD j 0)) (lon_src.length - 1))

/-- Modelled from the claim's words for comparison with `reindex_to`: the
source index whose axis coordinate is nearest to `v` (smallest index on a
tie). -/
def nearestIdx (xs : List ℚ) (v : ℚ) : ℕ :=
  (List.range xs.length).foldl
    (fun best i => if |xs.getD i 0 - v| < |xs.getD best 0 - v| then i else best) 0

/-- Modelled from the claim's words: nearest-sample reindexing built on
`nearestIdx`. -/
def reindex_nearest_claim (lat_src lon_src : List ℚ) (src : GridF)
    (lat_dst lon_dst : List ℚ) : GridF :=
  fun i j =>
    src (nearestIdx lat_src (lat_dst.getD i 0)) (nearestIdx lon_src (lon_dst.getD j 0))

/-- The index the code's clipped `searchsorted` actually selects, spelled
out: the smallest source index whose coordinate is `≥ v`, or the last valid
index when every coordinate is `< v`.  `ceilIdxAux` is the search. -/
def ceilIdxAux (v : ℚ) : List ℚ → Option ℕ
  | [] => none
  | x :: t => if v ≤ x then some 0 else (ceilIdxAux v t).map (· + 1)

/-- Clamped ceiling index on an axis (see `ceilIdxAux`). -/
def ceilClampIdx (xs : List ℚ) (v : ℚ) : ℕ :=
  match ceilIdxAux v xs with
  | some k => k
  | none => xs.length - 1

/-- Python's float `%` with positive modulus 360: result in `[0, 360)`. -/
def pymod360 (x : ℚ) : ℚ := x - 360 * (⌊x / 360⌋ : ℚ)

/-- Expression `((l + 180.0) % 360.0) - 180.0` from `normalize_lon_and_align`. -/
def normLon (l : ℚ) : ℚ := pymod360 (l + 180) - 180

/-- The comparison `np.argsort` effectively orders indices by: value first,
index as tie-break (a stable sort of the index range by value). -/
def argsortLE (vals : List ℚ) (i j : ℕ) : Prop :=
  vals.getD i 0 < vals.getD j 0 ∨ (vals.getD i 0 = vals.getD j 0 ∧ i ≤ j)

instance argsortLE.instDecidable (vals : List ℚ) : DecidableRel (argsortLE vals) :=
  fun i j => by unfold argsortLE; infer_instance

instance argsortLE.instIsTotal (vals : List ℚ) : IsTotal ℕ (argsortLE vals) := by
  constructor
  intro a b
  unfold argsortLE
  rcases lt_trichotomy (vals.getD a 0) (vals.getD b 0) with h | h | h
  · exact Or.inl (Or.inl h)
  · rcases Nat.le_total a b with hab | hab
    · exact Or.inl (Or.inr ⟨h, hab⟩)
    · exact Or.inr (Or.inr ⟨h.symm, hab⟩)
  · exact Or.inr (Or.inl h)

instance argsortLE.instIsTrans (vals : List ℚ) : IsTrans ℕ (argsortLE vals) := by
  constructor
  intro a b c hab hbc
  unfold argsortLE at *
  rcases hab with h1 | ⟨h1, h1'⟩ <;> rcases hbc with h2 | ⟨h2, h2'⟩
  · exact Or.inl (h1.trans h2)
  · exact Or.inl (h2 ▸ h1)
  · exact Or.inl (h1 ▸ h2)
  · exact Or.inr ⟨h1.trans h2, h1'.trans h2'⟩

/-- Model of `np.argsort(vals)`: the permutation of `[0, …, n-1]` that sorts `vals`
ascending (stable, i.e. ties keep index order). -/
def argsort (vals : List ℚ) : List ℕ :=
  List.insertionSort (argsortLE vals) (List.range vals.length)

/-- Model of `normalize_lon_and_align(lon1d, arr2d)` from `tempo_to_json.py`:
raises (here `none`) unless the grid is 2-D with `lon.length` columns;
otherwise normalizes each longitude to `[-180, 180)`, computes the sorting
permutation and applies it to the axis and to the grid columns. -/
def normalize_lon_and_align (lon : List ℚ) (arr : GridL) :
    Option (List ℚ × GridL) :=
  if arr.all (fun row => decide (row.length = lon.length)) then
    some (((argsort (lon.map normLon)).map (fun i => (lon.map normLon).getD i 0)),
      arr.map (fun row => (argsort (lon.map normLon)).map (fun i => row.getD i none)))
  else none

/-- Comparison on granules by end timestamp, as used by
`values_stack.sort(key=lambda t: t[0])`. -/
def tsLE (a b : ℤ × GridF) : Prop := a.1 ≤ b.1

instance tsLE.instDecidable : DecidableRel tsLE :=
  fun a b => by unfold tsLE; infer_instance

/-- Model of `build_latest(values_stack)` from `build_tempo_forecast_summaries.py`:
raises on empty input (here `none`); sorts oldest → newest (Python's stable
sort); the first granule seeds `latest` with its grid (missing cells
included) and `latest_ts` with its timestamp everywhere; each later granule
overwrites value and timestamp exactly at its finite cells.  Afterwards
`age_h = (now_ts - latest_ts)/3600`, forced to missing where `latest` is
not finite.  Returns `(latest, age_h, newest_end_ts)`. -/
def build_latest (stack : List (ℤ × GridF)) (now_ts : ℚ) :
    Option (GridF × GridF × ℤ) :=
  match List.insertionSort tsLE stack with
  | [] => none
  | (t0, g0) :: rest =>
    some
      (fun i j =>
        (rest.foldl
          (fun st p => fun i j =>
            match p.2 i j with
            | some v => (some v, (p.1 : ℚ))
            | none => st i j)
          (fun i j => (g0 i j, (t0 : ℚ))) i j).1,
       fun i j =>
        match (rest.foldl
          (fun st p => fun i j =>
            match p.2 i j with
            | some v => (some v, (p.1 : ℚ))
            | none => st i j)
          (fun i j => (g0 i j, (t0 : ℚ))) i j) with
        | (some _, t) => some ((now_ts - t) / 3600)
        | (none, _) => none,
       (((t0, g0) :: rest).getLastD (t0, g0)).1)

/-- The most recent finite observation of one cell across a time-ordered
history: its value and timestamp, `none` when the cell is never finite. -/
def lastFiniteObs (hist : List (ℤ × Cell)) : Option (ℚ × ℤ) :=
  (hist.reverse.filterMap (fun p => p.2.map (fun v => (v, p.1)))).head?

/-- Model of `compute_local_hour(utc_end_ts, lon)` from
`build_tempo_forecast_summaries.py`:
`floor((ts + (lon/360)*86400) / 3600) mod 24` (the `int16` cast is a no-op
on values in `[0, 24)`). -/
def compute_local_hour (utc_end_ts : ℤ) (lon_deg : ℚ) : ℤ :=
  ⌊((utc_end_ts : ℚ) + lon_deg / 360 * 86400) / 3600⌋ % 24

/-- Mask `valid_mask & (local_hour == h)` at one cell of one granule. -/
def hodContribB (lon2d : ℕ → ℕ → ℚ) (t : ℤ) (g : GridF) (h i j : ℕ) : Bool :=
  (g i j).isSome && decide (compute_local_hour t (lon2d i j) = (h : ℤ))

/-- Model of `np.any(m)` over the `H × W` index range. -/
def anyCell (H W : ℕ) (p : ℕ → ℕ → Bool) : Bool :=
  (List.range H).any (fun i => (List.range W).any (fun j => p i j))

/-- Accumulator state of the `build_hod` loop: `hod_sum[h]`, `hod_cnt[h]`
(per cell) and the 24 global `hour_counts`. -/
structure HodState where
  hod_sum : ℕ → ℕ → ℕ → ℚ
  hod_cnt : ℕ → ℕ → ℕ → ℕ
  hour_counts : ℕ → ℕ

/-- All-zero initial `HodState`. -/
def hodInit : HodState := ⟨fun _ _ _ => 0, fun _ _ _ => 0, fun _ => 0⟩

/-- One granule of the `build_hod` loop: for each hour `h < 24`, add the
granule's value to `hod_sum[h]` and 1 to `hod_cnt[h]` at every cell that is
finite with local hour `h`, and add 1 to `hour_counts[h]` when any cell
contributed (`if np.any(m)`). -/
def hodStep (H W : ℕ) (lon2d : ℕ → ℕ → ℚ) (st : HodState) (p : ℤ × GridF) :
    HodState :=
  ⟨fun h i j => st.hod_sum h i j +
      (if h < 24 ∧ hodContribB lon2d p.1 p.2 h i j then (p.2 i j).getD 0 else 0),
   fun h i j => st.hod_cnt h i j +
      (if h < 24 ∧ hodContribB lon2d p.1 p.2 h i j then 1 else 0),
   fun h => st.hour_counts h +
      (if h < 24 ∧ anyCell H W (hodContribB lon2d p.1 p.2 h) then 1 else 0)⟩

/-- The accumulator after all granules of `build_hod`. -/
def hodFold (H W : ℕ) (lon2d : ℕ → ℕ → ℚ) (stack : List (ℤ × GridF)) : HodState :=
  stack.foldl (hodStep H W lon2d) hodInit

/-- Model of `build_hod(values_stack, lon2d, min_per_hour)` from
`build_tempo_forecast_summaries.py`: raises on empty input (here `none`);
accumulates `hod_sum`/`hod_cnt`/`hour_counts` over all granules; the output
grid for hour `h` holds `sum/cnt` where `cnt ≥ min_per_hour` and missing
elsewhere (a cell with `cnt = 0` selected by a non-positive threshold gets
numpy's `0.0/0 = NaN`, hence the inner guard). -/
def build_hod (H W : ℕ) (stack : List (ℤ × GridF)) (lon2d : ℕ → ℕ → ℚ)
    (min_per_hour : ℤ) : Option ((ℕ → GridF) × (ℕ → ℕ)) :=
  if stack.isEmpty then none
  else
    some (fun h i j =>
      if min_per_hour ≤ ((hodFold H W lon2d stack).hod_cnt h i j : ℤ) then
        (if (hodFold H W lon2d stack).hod_cnt h i j = 0 then none
         else some ((hodFold H W lon2d stack).hod_sum h i j
            / ((hodFold H W lon2d stack).hod_cnt h i j : ℚ)))
      else none,
      (hodFold H W lon2d stack).hour_counts)

/-- Total number of (granule, cell) pairs of an `H × W` run whose value is
finite (the quantity claim C4 says `hour_counts` sums to). -/
def totalFiniteCells (H W : ℕ) (stack : List (ℤ × GridF)) : ℕ :=
  (stack.map (fun p =>
    ((List.range H).map (fun i =>
      (List.range W).countP (fun j => (p.2 i j).isSome))).sum)).sum

/-- Helper: dropping the `none` entries of per-row `nanmeanQ` values keeps
exactly the rows that contain a finite member, each replaced by its
finite-member mean. -/
theorem filterMap_id_map_nanmeanQ (rows : List (List Cell)) :
    (rows.map nanmeanQ).filterMap id
      = (rows.filter (fun r => !(r.filterMap id).isEmpty)).map
          (fun r => (r.filterMap id).sum / ((r.filterMap id).length : ℚ)) := by
  induction rows with
  | nil => rfl
  | cons r rs ih =>
    by_cases h : (r.filterMap id).isEmpty
    · simp [nanmeanQ, h, List.filterMap_cons, List.filter_cons, ih]
    · simp [nanmeanQ, h, List.filterMap_cons, List.filter_cons, ih]

/-- Claim C1 (amended): with block factors `≥ 1` that fit in the grid,
`block_reduce_mean` trims the grid to the largest multiple of
`(by_y, by_x)` and each output cell is `blockCellRowwise`: the mean, over
the block rows that contain at least one finite cell, of those rows'
finite-cell means (missing when the whole block is missing) — not the flat
mean of all finite cells of the block. -/
theorem block_reduce_mean_rowwise (h w : ℕ) (arr : GridF) (by_y by_x i j : ℕ)
    (hy : 1 ≤ by_y) (hx : 1 ≤ by_x) (hyh : by_y ≤ h) (hxw : by_x ≤ w) :
    (block_reduce_mean h w arr by_y by_x).map (fun f => f i j)
      = some (blockCellRowwise arr by_y by_x i j) := by
  have h1 : h / by_y * by_y ≠ 0 :=
    Nat.mul_ne_zero (by have := (Nat.one_le_div_iff (by omega)).mpr hyh; omega) (by omega)
  have h2 : w / by_x * by_x ≠ 0 :=
    Nat.mul_ne_zero (by have := (Nat.one_le_div_iff (by omega)).mpr hxw; omega) (by omega)
  rw [block_reduce_mean, if_neg (by push_neg; exact ⟨h1, h2⟩)]
  simp only [Option.map_some', blockCellRowwise, Option.some_inj]
  rw [show ((List.range by_y).map (fun r =>
        nanmeanQ ((List.range by_x).map (fun c => arr (i * by_y + r) (j * by_x + c)))))
      = ((List.range by_y).map (fun r =>
          (List.range by_x).map (fun c => arr (i * by_y + r) (j * by_x + c)))).map nanmeanQ
    from (List.map_map nanmeanQ
      (fun r => (List.range by_x).map (fun c => arr (i * by_y + r) (j * by_x + c)))
      (List.range by_y)).symm]
  rw [nanmeanQ, filterMap_id_map_nanmeanQ]
  simp [List.isEmpty_iff]

/-- Claim C1 counterexample: the 2×2 block `[[1, NaN], [2, 4]]` has flat
finite-cell mean `7/3`, but `block_reduce_mean` returns the mean of the
per-row means `(1 + 3)/2 = 2`. -/
theorem block_reduce_mean_flat_cex :
    (block_reduce_mean 2 2
        (fun i j => (([[some (1:ℚ), none], [some 2, some 4]].getD i []).getD j none)) 2 2).map
        (fun f => f 0 0) = some (some 2) ∧
    (block_reduce_mean_flat 2 2
        (fun i j => (([[some (1:ℚ), none], [some 2, some 4]].getD i []).getD j none)) 2 2).map
        (fun f => f 0 0) = some (some (7/3)) ∧
    (2 : ℚ) ≠ 7/3 := by
  refine ⟨?_, ?_, by norm_num⟩ <;>
  · simp [block_reduce_mean, block_reduce_mean_flat, nanmeanQ, List.range_succ]
    norm_num

/-- Claim C1 witness: the amended theorem applied at a concrete input. -/
theorem block_reduce_mean_rowwise_witness :
    1 ≤ 2 ∧ 2 ≤ 2 ∧
    (block_reduce_mean 2 2 (fun _ _ => (some 1 : Cell)) 2 2).map (fun f => f 0 0)
      = some (blockCellRowwise (fun _ _ => (some 1 : Cell)) 2 2 0 0) :=
  ⟨by decide, by decide,
    block_reduce_mean_rowwise 2 2 (fun _ _ => (some 1 : Cell)) 2 2 0 0
      (by decide) (by decide) (by decide) (by decide)⟩

/-- Helper: numeric facts about every spec `spec_for` can return. -/
theorem spec_for_bounds (p : String) :
    0 ≤ (spec_for p).min ∧ (spec_for p).min ≤ (spec_for p).max ∧
    0 < (spec_for p).max ∧ (spec_for p).max ≤ ABSURD_POS := by
  unfold spec_for SPEC defaultSpec
  split_ifs <;> norm_num [Option.getD, ABSURD_POS]

/-- Helper: any finite value surviving `sanitizeVal` lies strictly above
`ABSURD_NEG`, at most `mx ≤ ABSURD_POS`, at least `mn` when `allow_zero`,
and strictly positive when not `allow_zero`. -/
theorem sanitizeVal_some_range (az : Bool) (mn mx : ℚ) (v w : ℚ)
    (h1 : 0 ≤ mn) (h2 : mn ≤ mx) (h4 : az = false → 0 < mx)
    (h : sanitizeVal az mn mx (some v) = some w) :
    ABSURD_NEG < w ∧ w ≤ mx ∧ (az = true → mn ≤ w) ∧ (az = false → 0 < w) := by
  have hneg : ABSURD_NEG < 0 := by norm_num [ABSURD_NEG]
  cases az with
  | true =>
    simp only [sanitizeVal] at h
    split_ifs at h with ha hb hc hd he <;>
      simp only [Option.some_inj, reduceCtorEq] at h <;> subst h <;>
      exact ⟨by linarith, by linarith, fun _ => by linarith,
        fun hf => absurd hf (by simp)⟩
  | false =>
    simp only [sanitizeVal, Bool.false_eq_true, if_false] at h
    split_ifs at h with ha hb hc hd <;>
      simp only [Option.some_inj, reduceCtorEq] at h <;> subst h <;>
      exact ⟨by linarith [h4 rfl, not_le.mp hc], by linarith,
        fun ht => absurd ht (by simp), fun _ => by linarith [h4 rfl, not_le.mp hc]⟩

/-- Helper: `sanitizeVal` is idempotent for any spec with
`0 ≤ mn ≤ mx ≤ ABSURD_POS` and a positive `mx` when zero is disallowed. -/
theorem sanitizeVal_idem (az : Bool) (mn mx : ℚ) (x : Cell)
    (h1 : 0 ≤ mn) (h2 : mn ≤ mx) (h3 : mx ≤ ABSURD_POS) (h4 : az = false → 0 < mx) :
    sanitizeVal az mn mx (sanitizeVal az mn mx x) = sanitizeVal az mn mx x := by
  cases x with
  | none => rfl
  | some v =>
    rcases hy : sanitizeVal az mn mx (some v) with _ | w
    · rfl
    · obtain ⟨r1, r2, r3, r4⟩ := sanitizeVal_some_range az mn mx v w h1 h2 h4 hy
      cases az with
      | false =>
        have hw : 0 < w := r4 rfl
        simp only [sanitizeVal]
        rw [if_neg (by linarith), if_neg (by linarith), if_neg (by simp),
          if_neg (by linarith), if_neg (by linarith)]
      | true =>
        have hw : mn ≤ w := r3 rfl
        simp only [sanitizeVal]
        rw [if_neg (by linarith), if_neg (by linarith), if_pos trivial,
          if_neg (not_lt.mpr hw), if_neg (not_lt.mpr r2)]

/-- Claim C2 (amended): for every product and grid cell, `sanitize_grid`
maps non-finite to missing; with `allow_zero=false` any `v ≤ 0` becomes
missing; with `allow_zero=true` any `v < min` with `v ≥ ABSURD_NEG` becomes
exactly `min`; any `v > max` with `v ≤ ABSURD_POS` becomes exactly `max`;
but — contrary to the original claim — values beyond the absurd bounds
`±1e20` are invalidated to missing before any clamping. -/
theorem sanitize_domain_policy (p : String) (g : GridF) (i j : ℕ) (v : ℚ) :
    (g i j = none → sanitize_grid g p i j = none) ∧
    (g i j = some v →
      ((spec_for p).allow_zero = false → v ≤ 0 → sanitize_grid g p i j = none) ∧
      ((spec_for p).allow_zero = true → ABSURD_NEG ≤ v → v < (spec_for p).min →
        sanitize_grid g p i j = some (spec_for p).min) ∧
      (v < ABSURD_NEG → sanitize_grid g p i j = none) ∧
      ((spec_for p).max < v → v ≤ ABSURD_POS → sanitize_grid g p i j = some (spec_for p).max) ∧
      (ABSURD_POS < v → sanitize_grid g p i j = none)) := by
  obtain ⟨b1, b2, b3, b4⟩ := spec_for_bounds p
  have hneg : ABSURD_NEG < 0 := by norm_num [ABSURD_NEG]
  constructor
  · intro h
    simp [sanitize_grid, h, sanitizeVal]
  · intro h
    simp only [sanitize_grid, h]
    refine ⟨?_, ?_, ?_, ?_, ?_⟩
    · intro ha hv
      simp only [sanitizeVal, ha, Bool.false_eq_true, if_false]
      split_ifs <;> first | rfl | exact absurd hv (by assumption)
    · intro ha hlo hv
      simp only [sanitizeVal, ha, if_true]
      rw [if_neg (by linarith), if_neg (by linarith), if_pos hv,
        if_neg (not_lt.mpr b2)]
    · intro hv
      simp only [sanitizeVal]
      rw [if_pos hv]
    · intro hv hhi
      simp only [sanitizeVal]
      rw [if_neg (by linarith), if_neg (by linarith)]
      cases ha : (spec_for p).allow_zero with
      | true =>
        rw [if_pos rfl,
          show (if v < (spec_for p).min then (spec_for p).min else v) = v
            from if_neg (by linarith), if_pos hv]
      | false =>
        rw [if_neg (by simp), if_neg (by push_neg; linarith), if_pos hv]
    · intro hv
      simp only [sanitizeVal]
      rw [if_neg (by linarith), if_pos hv]

/-- Claim C2 counterexample: for product `no2` (`max = 5e16`) the input
`2e20 > max` is mapped to missing, not clamped to `max`, because it
exceeds `ABSURD_POS = 1e20`. -/
theorem sanitize_absurd_cex :
    (spec_for "no2").max < 200000000000000000000 ∧
    sanitize_grid (fun _ _ => some ((200000000000000000000 : ℚ))) "no2" 0 0 = none ∧
    sanitize_grid (fun _ _ => some ((200000000000000000000 : ℚ))) "no2" 0 0
      ≠ some (spec_for "no2").max := by
  exact ⟨by decide, by decide, by decide⟩

/-- Claim C2 witness: the amended theorem applied to product `o3tot`
(`allow_zero = true`) and the value `-5 < min = 0`, which is clamped up. -/
theorem sanitize_domain_policy_witness :
    ((spec_for "o3tot").allow_zero = true ∧ ABSURD_NEG ≤ (-5 : ℚ) ∧
      (-5 : ℚ) < (spec_for "o3tot").min) ∧
    sanitize_grid (fun _ _ => some (-5 : ℚ)) "o3tot" 0 0 = some (spec_for "o3tot").min :=
  ⟨⟨by decide, by decide, by decide⟩,
    ((sanitize_domain_policy "o3tot" (fun _ _ => some (-5 : ℚ)) 0 0 (-5)).2 rfl).2.1
      (by decide) (by decide) (by decide)⟩

/-- Claim C9: for every known product id, `sanitize_grid` is idempotent:
every output cell is already missing or inside the admissible domain, so a
second pass changes nothing. -/
theorem sanitize_idempotent (p : String) (g : GridF) (i j : ℕ)
    (hp : p = "no2" ∨ p = "hcho" ∨ p = "o3tot" ∨ p = "cldo4") :
    sanitize_grid (sanitize_grid g p) p i j = sanitize_grid g p i j := by
  obtain ⟨b1, b2, b3, b4⟩ := spec_for_bounds p
  exact sanitizeVal_idem (spec_for p).allow_zero (spec_for p).min (spec_for p).max
    (g i j) b1 b2 b4 (fun _ => b3)

/-- Claim C9 witness: idempotence applied at a concrete product and cell. -/
theorem sanitize_idempotent_witness :
    ("no2" = "no2" ∨ "no2" = "hcho" ∨ "no2" = "o3tot" ∨ "no2" = "cldo4") ∧
    sanitize_grid (sanitize_grid (fun _ _ => some (3 : ℚ)) "no2") "no2" 0 0
      = sanitize_grid (fun _ _ => some (3 : ℚ)) "no2" 0 0 :=
  ⟨Or.inl rfl,
    sanitize_idempotent "no2" (fun _ _ => some (3 : ℚ)) 0 0 (Or.inl rfl)⟩

/-- Claim C8 (amended): in `build_tempo_forecast_summaries.py` the spec
lookup is total — every id outside the fixed key set gets the default
conservative spec and `sanitize_grid` succeeds with it — but in
`tempo_to_json.py` the `PRODUCTS[product]` lookup of
`_sanitize_array_for_product` has no default and fails (KeyError) for
unknown ids. -/
theorem spec_lookup_amended (p : String)
    (hp : p ≠ "no2" ∧ p ≠ "hcho" ∧ p ≠ "o3tot" ∧ p ≠ "cldo4") :
    spec_for p = defaultSpec ∧
    (∀ g : GridF, ∀ i j, sanitize_grid g p i j
      = sanitizeVal defaultSpec.allow_zero defaultSpec.min defaultSpec.max (g i j)) ∧
    PRODUCTS p = none ∧
    (∀ g : GridF, sanitize_array_for_product g p = none) := by
  obtain ⟨h1, h2, h3, h4⟩ := hp
  have hs : spec_for p = defaultSpec := by
    simp [spec_for, SPEC, h1, h2, h3, h4]
  refine ⟨hs, fun g i j => by rw [sanitize_grid, hs], ?_, ?_⟩
  · simp [PRODUCTS, h1, h2, h3, h4]
  · intro g
    simp [sanitize_array_for_product, PRODUCTS, h1, h2, h3, h4]

/-- Claim C8 counterexample: for the unknown id `"aerosol"` the
`tempo_to_json.py` lookup (and hence `_sanitize_array_for_product`) fails
rather than using a default, while `sanitize_grid` succeeds with the
default spec. -/
theorem spec_lookup_keyerror_cex :
    PRODUCTS "aerosol" = none ∧
    sanitize_array_for_product (fun _ _ => some (1 : ℚ)) "aerosol" = none ∧
    sanitize_grid (fun _ _ => some (1 : ℚ)) "aerosol" 0 0 = some 1 :=
  ⟨rfl, rfl, by decide⟩

/-- Claim C8 witness: the amended theorem applied to the unknown id
`"aerosol"`. -/
theorem spec_lookup_amended_witness :
    ("aerosol" ≠ "no2" ∧ "aerosol" ≠ "hcho" ∧ "aerosol" ≠ "o3tot" ∧
      "aerosol" ≠ "cldo4") ∧
    spec_for "aerosol" = defaultSpec ∧ PRODUCTS "aerosol" = none :=
  ⟨⟨by decide, by decide, by decide, by decide⟩,
    (spec_lookup_amended "aerosol" ⟨by decide, by decide, by decide, by decide⟩).1,
    (spec_lookup_amended "aerosol" ⟨by decide, by decide, by decide, by decide⟩).2.2.1⟩

/-- Helper: on a strictly ascending axis, `searchsorted` at the `k`-th
axis value returns exactly `k`. -/
theorem searchsorted_getD (xs : List ℚ) (k : ℕ)
    (hs : List.Pairwise (· < ·) xs) (hk : k < xs.length) :
    searchsorted xs (xs.getD k 0) = k := by
  induction xs generalizing k with
  | nil => simp at hk
  | cons a t ih =>
    rw [List.pairwise_cons] at hs
    cases k with
    | zero =>
      simp only [List.getD_cons_zero, searchsorted, List.countP_cons]
      rw [List.countP_eq_zero.mpr]
      · simp
      · intro x hx
        simp only [decide_eq_true_eq, not_lt]
        exact le_of_lt (hs.1 x hx)
    | succ k =>
      have hk' : k < t.length := by simpa using hk
      have hmem : t.getD k 0 ∈ t := by
        rw [List.getD_eq_getElem?_getD, List.getElem?_eq_getElem hk', Option.getD_some]
        exact List.getElem_mem hk'
      have ha : a < t.getD k 0 := hs.1 _ hmem
      simp only [List.getD_cons_succ, searchsorted, List.countP_cons]
      rw [show (t.countP fun x => decide (x < t.getD k 0)) = k from ih k hs.2 hk']
      rw [List.getD_eq_getElem?_getD] at ha
      simp [ha]

/-- Helper: on a non-empty strictly ascending axis, the clipped
`searchsorted` index is the clamped ceiling index. -/
theorem searchsorted_clamp_eq_ceil (xs : List ℚ) (v : ℚ)
    (hne : xs ≠ []) (hs : List.Pairwise (· < ·) xs) :
    min (searchsorted xs v) (xs.length - 1) = ceilClampIdx xs v := by
  induction xs with
  | nil => exact absurd rfl hne
  | cons a t ih =>
    rw [List.pairwise_cons] at hs
    by_cases hva : v ≤ a
    · have h0 : searchsorted (a :: t) v = 0 := by
        simp only [searchsorted, List.countP_cons]
        rw [List.countP_eq_zero.mpr]
        · simp [not_lt.mpr hva]
        · intro x hx
          simp only [decide_eq_true_eq, not_lt]
          exact le_trans hva (le_of_lt (hs.1 x hx))
      rw [h0]
      simp [ceilClampIdx, ceilIdxAux, hva]
    · have hav : a < v := not_le.mp hva
      cases t with
      | nil =>
        simp [searchsorted, ceilClampIdx, ceilIdxAux, hva, hav]
      | cons b u =>
        have hrec := ih (by simp) hs.2
        have hcount : searchsorted (a :: b :: u) v = searchsorted (b :: u) v + 1 := by
          simp [searchsorted, List.countP_cons, hav]
        have hstep : ceilIdxAux v (a :: b :: u) = (ceilIdxAux v (b :: u)).map (· + 1) := by
          rw [ceilIdxAux, if_neg hva]
        rw [hcount, show (a :: b :: u).length - 1 = ((b :: u).length - 1) + 1 from by simp,
          Nat.succ_min_succ, hrec]
        simp only [ceilClampIdx, hstep]
        cases haux : ceilIdxAux v (b :: u) with
        | some k => simp [haux]
        | none => simp [haux]

/-- Claim C3 (amended): for non-empty, strictly ascending source axes,
`reindex_to` returns the source value at the clamped left-insertion
(ceiling) index — the smallest source index whose coordinate is `≥` the
destination coordinate, or the last index when none is; in particular a
destination point that coincides with a source axis point receives the
exact source value at that point.  It is not nearest-sample selection. -/
theorem reindex_to_ceil_index (lat_src lon_src : List ℚ) (src : GridF)
    (lat_dst lon_dst : List ℚ) (i j : ℕ)
    (hlat : List.Pairwise (· < ·) lat_src) (hlon : List.Pairwise (· < ·) lon_src)
    (hlatne : lat_src ≠ []) (hlonne : lon_src ≠ []) :
    reindex_to lat_src lon_src src lat_dst lon_dst i j
      = src (ceilClampIdx lat_src (lat_dst.getD i 0))
            (ceilClampIdx lon_src (lon_dst.getD j 0)) ∧
    (∀ ky kx, ky < lat_src.length → kx < lon_src.length →
      lat_dst.getD i 0 = lat_src.getD ky 0 → lon_dst.getD j 0 = lon_src.getD kx 0 →
      reindex_to lat_src lon_src src lat_dst lon_dst i j = src ky kx) := by
  constructor
  · rw [reindex_to, searchsorted_clamp_eq_ceil lat_src _ hlatne hlat,
      searchsorted_clamp_eq_ceil lon_src _ hlonne hlon]
  · intro ky kx hky hkx hey hex
    rw [reindex_to, hey, hex, searchsorted_getD lat_src ky hlat hky,
      searchsorted_getD lon_src kx hlon hkx,
      Nat.min_eq_left (by omega), Nat.min_eq_left (by omega)]

/-- Claim C3 counterexample: with source axis `[0, 10]` and destination
point `1`, the nearest source coordinate is `0` (distance 1 vs 9), but
`reindex_to` gathers from index 1 (the first coordinate `≥ 1`). -/
theorem reindex_to_not_nearest_cex :
    reindex_to [0, 10] [0, 10] (fun _ b => if b = 0 then some (5 : ℚ) else some 7)
      [0] [1] 0 0 = some 7 ∧
    reindex_nearest_claim [0, 10] [0, 10]
      (fun _ b => if b = 0 then some (5 : ℚ) else some 7) [0] [1] 0 0 = some 5 ∧
    reindex_to [0, 10] [0, 10] (fun _ b => if b = 0 then some (5 : ℚ) else some 7)
        [0] [1] 0 0
      ≠ reindex_nearest_claim [0, 10] [0, 10]
        (fun _ b => if b = 0 then some (5 : ℚ) else some 7) [0] [1] 0 0 := by
  refine ⟨?_, ?_, ?_⟩ <;>
    norm_num [reindex_to, reindex_nearest_claim, searchsorted, nearestIdx,
      List.countP_cons, List.range_succ]

/-- Claim C3 witness: the amended theorem at concrete axes, with the
exact-coincidence consequence evaluated. -/
theorem reindex_to_ceil_index_witness :
    (List.Pairwise (· < ·) [(0 : ℚ), 10] ∧ ([(0 : ℚ), 10] : List ℚ) ≠ []) ∧
    reindex_to [0, 10] [0, 10] (fun a b => if a = 0 ∧ b = 0 then some (1 : ℚ) else none)
      [0] [0] 0 0
      = (fun a b => if a = 0 ∧ b = 0 then some (1 : ℚ) else none) 0 0 :=
  ⟨⟨by simp [List.pairwise_cons], by simp⟩,
    (reindex_to_ceil_index [0, 10] [0, 10]
      (fun a b => if a = 0 ∧ b = 0 then some (1 : ℚ) else none) [0] [0] 0 0
      (by simp [List.pairwise_cons]) (by simp [List.pairwise_cons])
      (by simp) (by simp)).2 0 0 (by simp) (by simp) rfl rfl⟩

/-- Helper: `getD` at an in-range index is a member of the list. -/
theorem getD_mem_of_lt {α : Type} (l : List α) (i : ℕ) (d : α) (h : i < l.length) :
    l.getD i d ∈ l := by
  rw [List.getD_eq_getElem?_getD, List.getElem?_eq_getElem h, Option.getD_some]
  exact List.getElem_mem h

/-- Helper: gathering a list by `getD` over its own index range is the
identity. -/
theorem map_getD_range {α : Type} (l : List α) (d : α) :
    (List.range l.length).map (fun i => l.getD i d) = l := by
  induction l with
  | nil => rfl
  | cons a t ih =>
    rw [List.length_cons, List.range_succ_eq_map, List.map_cons, List.map_map]
    refine congrArg₂ List.cons rfl ?_
    simpa [Function.comp_def, List.getElem?_cons_succ, List.getD_eq_getElem?_getD]
      using ih

/-- Helper: the Python float `%` result lies in `[0, 360)`. -/
theorem pymod360_bounds (x : ℚ) : 0 ≤ pymod360 x ∧ pymod360 x < 360 := by
  have h1 : ((⌊x / 360⌋ : ℤ) : ℚ) ≤ x / 360 := Int.floor_le (x / 360)
  have h2 : x / 360 < (⌊x / 360⌋ : ℤ) + 1 := Int.lt_floor_add_one (x / 360)
  have h3 : (360 : ℚ) * (x / 360) = x := by field_simp
  constructor <;> (unfold pymod360; nlinarith [h1, h2, h3])

/-- Helper: every normalized longitude lies in `[-180, 180)`. -/
theorem normLon_bounds (l : ℚ) : -180 ≤ normLon l ∧ normLon l < 180 := by
  obtain ⟨h1, h2⟩ := pymod360_bounds (l + 180)
  unfold normLon
  constructor <;> linarith

/-- Helper: `normLon` is the identity on `[-180, 180)`. -/
theorem normLon_fixed (x : ℚ) (h1 : -180 ≤ x) (h2 : x < 180) : normLon x = x := by
  have hf : ⌊(x + 180) / 360⌋ = 0 := by
    rw [Int.floor_eq_zero_iff]
    refine ⟨div_nonneg (by linarith) (by norm_num), ?_⟩
    exact (div_lt_one (by norm_num)).mpr (by linarith)
  unfold normLon pymod360
  rw [hf]
  push_cast
  ring

/-- Helper: the stable `argsort` of an already weakly sorted value list is
the identity permutation. -/
theorem argsort_of_sorted (vals : List ℚ) (h : List.Sorted (· ≤ ·) vals) :
    argsort vals = List.range vals.length := by
  apply List.Sorted.insertionSort_eq
  refine (List.pairwise_lt_range vals.length).imp_of_mem ?_
  intro a b ha hb hab
  have ha' : a < vals.length := List.mem_range.mp ha
  have hb' : b < vals.length := List.mem_range.mp hb
  have hle : vals.getD a 0 ≤ vals.getD b 0 := by
    rw [List.getD_eq_getElem?_getD, List.getD_eq_getElem?_getD,
      List.getElem?_eq_getElem ha', List.getElem?_eq_getElem hb',
      Option.getD_some, Option.getD_some]
    exact List.pairwise_iff_getElem.mp h a b ha' hb' hab
  rcases lt_or_eq_of_le hle with hlt | heq
  · exact Or.inl hlt
  · exact Or.inr ⟨heq, le_of_lt hab⟩

/-- Claim C6 (amended): whenever the shape check passes,
`normalize_lon_and_align` succeeds; the output longitudes all lie in
`[-180, 180)` and are weakly ascending — strictly ascending when the
normalized longitudes are pairwise distinct, but not in general (duplicate
normalized values survive) — and applying the function again to its own
output returns the same axis and grid (idempotence). -/
theorem normalize_lon_props (lon : List ℚ) (arr : GridL)
    (harr : arr.all (fun row => decide (row.length = lon.length)) = true) :
    ∃ ln2 arr2, normalize_lon_and_align lon arr = some (ln2, arr2) ∧
      (∀ x ∈ ln2, -180 ≤ x ∧ x < 180) ∧
      List.Sorted (· ≤ ·) ln2 ∧
      ((lon.map normLon).Nodup → List.Sorted (· < ·) ln2) ∧
      normalize_lon_and_align ln2 arr2 = some (ln2, arr2) := by
  set vals := lon.map normLon with hvals
  set ord := argsort vals with hord
  set ln2 := ord.map (fun i => vals.getD i 0) with hln2
  set arr2 := arr.map (fun row => ord.map (fun i => row.getD i none)) with harr2
  have hperm : List.Perm ord (List.range vals.length) := List.perm_insertionSort _ _
  have hmemord : ∀ i ∈ ord, i < vals.length := fun i hi =>
    List.mem_range.mp (hperm.mem_iff.mp hi)
  have hbounds : ∀ x ∈ ln2, -180 ≤ x ∧ x < 180 := by
    intro x hx
    obtain ⟨i, hi, rfl⟩ := List.mem_map.mp hx
    obtain ⟨y, _, heq⟩ := List.mem_map.mp (getD_mem_of_lt vals i 0 (hmemord i hi))
    rw [← heq]
    exact normLon_bounds y
  have hsorted : List.Sorted (· ≤ ·) ln2 := by
    refine List.pairwise_map.mpr ((List.sorted_insertionSort _ _).imp ?_)
    intro a b hab
    rcases hab with hlt | ⟨heq, _⟩
    · exact le_of_lt hlt
    · exact le_of_eq heq
  have hpermln : List.Perm ln2 vals := by
    have h := hperm.map (fun i => vals.getD i 0)
    rwa [map_getD_range vals 0] at h
  have hrowlen : ∀ row ∈ arr2, row.length = ln2.length := by
    intro row hrow
    obtain ⟨row0, _, rfl⟩ := List.mem_map.mp hrow
    simp [hln2]
  refine ⟨ln2, arr2, ?_, hbounds, hsorted, ?_, ?_⟩
  · rw [normalize_lon_and_align, if_pos harr, ← hvals, ← hord, ← hln2, ← harr2]
  · intro hnd
    exact hsorted.lt_of_le (hpermln.nodup_iff.mpr hnd)
  · have hvals2 : ln2.map normLon = ln2 := by
      rw [show ln2.map normLon = ln2.map id from
        List.map_congr_left (fun x hx => normLon_fixed x (hbounds x hx).1 (hbounds x hx).2),
        List.map_id]
    have hcond2 : arr2.all (fun row => decide (row.length = ln2.length)) = true := by
      rw [List.all_eq_true]
      intro row hrow
      simpa using hrowlen row hrow
    rw [normalize_lon_and_align, if_pos hcond2, hvals2, argsort_of_sorted ln2 hsorted,
      map_getD_range ln2 0]
    simp only [Option.some_inj, Prod.mk.injEq]
    refine ⟨trivial, ?_⟩
    rw [show arr2.map (fun row => (List.range ln2.length).map (fun i => row.getD i none))
        = arr2.map id from List.map_congr_left ?_, List.map_id]
    intro row hrow
    rw [id_eq, ← hrowlen row hrow, map_getD_range row none]

/-- Claim C6 counterexample: the axis `[0, 360]` normalizes to `[0, 0]`
(both map to longitude 0), so the output axis is not strictly ascending. -/
theorem normalize_lon_strict_cex :
    (normalize_lon_and_align [0, 360] [[some 1, some 2]]).map Prod.fst
      = some [(0 : ℚ), 0] ∧
    ¬ List.Chain' (· < ·) [(0 : ℚ), 0] := by
  constructor
  · have hv : ([0, 360] : List ℚ).map normLon = [0, 0] := by
      norm_num [normLon, pymod360]
    rw [normalize_lon_and_align, if_pos (by decide), hv]
    have hsort : argsort [(0 : ℚ), 0] = [0, 1] := by
      simp [argsort, List.insertionSort, List.orderedInsert, argsortLE]
    rw [hsort]
    simp
  · simp

/-- Claim C6 witness: the amended theorem at a concrete axis and grid. -/
theorem normalize_lon_props_witness :
    (([[some 1, some 2]] : GridL).all
      (fun row => decide (row.length = ([190, 170] : List ℚ).length)) = true) ∧
    (∃ ln2 arr2, normalize_lon_and_align [190, 170] [[some 1, some 2]]
        = some (ln2, arr2) ∧
      (∀ x ∈ ln2, -180 ≤ x ∧ x < 180) ∧
      List.Sorted (· ≤ ·) ln2 ∧
      ((([190, 170] : List ℚ).map normLon).Nodup → List.Sorted (· < ·) ln2) ∧
      normalize_lon_and_align ln2 arr2 = some (ln2, arr2)) :=
  ⟨by decide, normalize_lon_props [190, 170] [[some 1, some 2]] (by decide)⟩

/-- Helper: appending one observation updates `lastFiniteObs` exactly when
the new cell is finite. -/
theorem lastFiniteObs_append (hist : List (ℤ × Cell)) (p : ℤ × Cell) :
    lastFiniteObs (hist ++ [p])
      = match p.2 with
        | some v => some (v, p.1)
        | none => lastFiniteObs hist := by
  cases hp : p.2 <;>
    simp [lastFiniteObs, List.reverse_append, List.filterMap_cons, hp]

/-- Helper: the per-cell last-finite-wins fold computes `lastFiniteObs`
(value and timestamp of the last finite entry, seed timestamp when the cell
is never finite). -/
theorem latest_cell_fold (hist : List (ℤ × Cell)) (t0 : ℚ) :
    List.foldl (fun acc (q : ℤ × Cell) =>
        match q.2 with
        | some v => ((some v : Cell), (q.1 : ℚ))
        | none => acc) ((none : Cell), t0) hist
      = match lastFiniteObs hist with
        | some pr => ((some pr.1 : Cell), (pr.2 : ℚ))
        | none => ((none : Cell), t0) := by
  induction hist using List.reverseRecOn with
  | nil => rfl
  | append_singleton l p ih =>
    rw [List.foldl_append, List.foldl_cons, List.foldl_nil, lastFiniteObs_append, ih]
    cases hp : p.2 <;> simp [hp]

/-- Helper: projecting the grid-level fold of `build_latest` at one cell is
the per-cell fold over that cell's history. -/
theorem foldl_grid_cell (rest : List (ℤ × GridF)) (st : ℕ → ℕ → Cell × ℚ) (i j : ℕ) :
    (rest.foldl
      (fun st p => fun i j =>
        match p.2 i j with
        | some v => (some v, (p.1 : ℚ))
        | none => st i j) st) i j
      = List.foldl (fun acc (q : ℤ × Cell) =>
          match q.2 with
          | some v => ((some v : Cell), (q.1 : ℚ))
          | none => acc) (st i j) (rest.map (fun p => (p.1, p.2 i j))) := by
  induction rest generalizing st with
  | nil => rfl
  | cons p rest ih =>
    rw [List.foldl_cons, List.map_cons, List.foldl_cons, ih]

/-- Claim C5: for a non-empty stack of granules with strictly increasing
end timestamps (time-ordered oldest → newest), `build_latest` gives every
cell the value of the most recent granule in which that cell is finite and
an age of `(now_ts - that granule's timestamp)/3600`; a later granule with
the cell missing never overwrites an earlier finite value, and a cell
finite in no granule gets missing value and missing age. -/
theorem build_latest_last_finite (stack : List (ℤ × GridF)) (now_ts : ℚ)
    (hne : stack ≠ [])
    (hsorted : List.Pairwise (fun a b => a.1 < b.1) stack) :
    ∃ latest age newest, build_latest stack now_ts = some (latest, age, newest) ∧
      ∀ i j,
        latest i j
          = (lastFiniteObs (stack.map (fun p => (p.1, p.2 i j)))).map Prod.fst ∧
        age i j
          = (lastFiniteObs (stack.map (fun p => (p.1, p.2 i j)))).map
              (fun pr => (now_ts - (pr.2 : ℚ)) / 3600) := by
  have hid : List.insertionSort tsLE stack = stack :=
    List.Sorted.insertionSort_eq (hsorted.imp (fun h => le_of_lt h))
  cases stack with
  | nil => exact absurd rfl hne
  | cons hd rest =>
    obtain ⟨t0, g0⟩ := hd
    refine ⟨(fun i j =>
        ((rest.foldl
          (fun st p => fun i j =>
            match p.2 i j with
            | some v => (some v, (p.1 : ℚ))
            | none => st i j)
          (fun i j => (g0 i j, (t0 : ℚ)))) i j).1),
      (fun i j =>
        match (rest.foldl
          (fun st p => fun i j =>
            match p.2 i j with
            | some v => (some v, (p.1 : ℚ))
            | none => st i j)
          (fun i j => (g0 i j, (t0 : ℚ)))) i j with
        | (some _, t) => some ((now_ts - t) / 3600)
        | (none, _) => none),
      (((t0, g0) :: rest).getLastD (t0, g0)).1, ?_, ?_⟩
    · rw [build_latest, hid]
    · intro i j
      simp only [List.map_cons]
      have h1 := latest_cell_fold
        ((t0, g0 i j) :: rest.map (fun p => (p.1, p.2 i j))) (t0 : ℚ)
      rw [List.foldl_cons] at h1
      have hfold : List.foldl (fun acc (q : ℤ × Cell) =>
            match q.2 with
            | some v => ((some v : Cell), (q.1 : ℚ))
            | none => acc) (g0 i j, (t0 : ℚ)) (rest.map (fun p => (p.1, p.2 i j)))
          = match lastFiniteObs ((t0, g0 i j) :: rest.map (fun p => (p.1, p.2 i j))) with
            | some pr => ((some pr.1 : Cell), (pr.2 : ℚ))
            | none => ((none : Cell), (t0 : ℚ)) := by
        cases hg : g0 i j <;> simp only [hg] at h1 <;> exact h1
      constructor
      · show ((rest.foldl
          (fun st p => fun i j =>
            match p.2 i j with
            | some v => (some v, (p.1 : ℚ))
            | none => st i j)
          (fun i j => (g0 i j, (t0 : ℚ)))) i j).1 = _
        rw [foldl_grid_cell, hfold]
        cases hobs : lastFiniteObs ((t0, g0 i j) :: rest.map (fun p => (p.1, p.2 i j))) <;>
          simp [hobs]
      · show (match (rest.foldl
          (fun st p => fun i j =>
            match p.2 i j with
            | some v => (some v, (p.1 : ℚ))
            | none => st i j)
          (fun i j => (g0 i j, (t0 : ℚ)))) i j with
          | (some _, t) => some ((now_ts - t) / 3600)
          | (none, _) => none) = _
        rw [foldl_grid_cell, hfold]
        cases hobs : lastFiniteObs ((t0, g0 i j) :: rest.map (fun p => (p.1, p.2 i j))) <;>
          simp [hobs]

/-- Claim C5 witness: the theorem applied to the spec's two-granule
example (`t=1`: cell A finite, B missing; `t=2`: A missing, B finite). -/
theorem build_latest_last_finite_witness :
    ([((1 : ℤ), fun i j => if i = 0 ∧ j = 0 then some (5 : ℚ) else none),
      ((2 : ℤ), fun i j => if i = 0 ∧ j = 1 then some (7 : ℚ) else none)]
        ≠ ([] : List (ℤ × GridF))) ∧
    (∃ latest age newest,
      build_latest
        [((1 : ℤ), fun i j => if i = 0 ∧ j = 0 then some (5 : ℚ) else none),
         ((2 : ℤ), fun i j => if i = 0 ∧ j = 1 then some (7 : ℚ) else none)] 10
        = some (latest, age, newest) ∧
      ∀ i j,
        latest i j
          = (lastFiniteObs
              (([((1 : ℤ), fun i j => if i = 0 ∧ j = 0 then some (5 : ℚ) else none),
                 ((2 : ℤ), fun i j => if i = 0 ∧ j = 1 then some (7 : ℚ) else none)]
                : List (ℤ × GridF)).map (fun p => (p.1, p.2 i j)))).map Prod.fst ∧
        age i j
          = (lastFiniteObs
              (([((1 : ℤ), fun i j => if i = 0 ∧ j = 0 then some (5 : ℚ) else none),
                 ((2 : ℤ), fun i j => if i = 0 ∧ j = 1 then some (7 : ℚ) else none)]
                : List (ℤ × GridF)).map (fun p => (p.1, p.2 i j)))).map
              (fun pr => ((10 : ℚ) - (pr.2 : ℚ)) / 3600)) :=
  ⟨List.cons_ne_nil _ _,
    build_latest_last_finite
      [((1 : ℤ), fun i j => if i = 0 ∧ j = 0 then some (5 : ℚ) else none),
       ((2 : ℤ), fun i j => if i = 0 ∧ j = 1 then some (7 : ℚ) else none)] 10
      (List.cons_ne_nil _ _) (by decide)⟩

/-- Helper: the computed local hour is an integer in `[0, 23]`. -/
theorem compute_local_hour_bounds (t : ℤ) (lon : ℚ) :
    0 ≤ compute_local_hour t lon ∧ compute_local_hour t lon < 24 := by
  unfold compute_local_hour
  exact ⟨Int.emod_nonneg _ (by norm_num), Int.emod_lt_of_pos _ (by norm_num)⟩

/-- Helper: closed form of the per-cell per-hour count accumulated by the
`build_hod` loop. -/
theorem hodFold_cnt (H W : ℕ) (lon2d : ℕ → ℕ → ℚ) (stack : List (ℤ × GridF))
    (st : HodState) (h i j : ℕ) (hh : h < 24) :
    (stack.foldl (hodStep H W lon2d) st).hod_cnt h i j
      = st.hod_cnt h i j + stack.countP (fun p => hodContribB lon2d p.1 p.2 h i j) := by
  induction stack generalizing st with
  | nil => simp
  | cons p s ih =>
    rw [List.foldl_cons, ih, List.countP_cons]
    by_cases hc : hodContribB lon2d p.1 p.2 h i j = true <;>
      simp [hodStep, hc, hh] <;> omega

/-- Helper: closed form of the per-cell per-hour sum accumulated by the
`build_hod` loop. -/
theorem hodFold_sum (H W : ℕ) (lon2d : ℕ → ℕ → ℚ) (stack : List (ℤ × GridF))
    (st : HodState) (h i j : ℕ) (hh : h < 24) :
    (stack.foldl (hodStep H W lon2d) st).hod_sum h i j
      = st.hod_sum h i j + (stack.map (fun p =>
          if hodContribB lon2d p.1 p.2 h i j then (p.2 i j).getD 0 else 0)).sum := by
  induction stack generalizing st with
  | nil => simp
  | cons p s ih =>
    rw [List.foldl_cons, ih, List.map_cons, List.sum_cons]
    by_cases hc : hodContribB lon2d p.1 p.2 h i j = true <;>
      simp [hodStep, hc, hh] <;> ring

/-- Helper: closed form of the global per-hour counter accumulated by the
`build_hod` loop: one increment per granule in which any cell contributed. -/
theorem hodFold_hc (H W : ℕ) (lon2d : ℕ → ℕ → ℚ) (stack : List (ℤ × GridF))
    (st : HodState) (h : ℕ) (hh : h < 24) :
    (stack.foldl (hodStep H W lon2d) st).hour_counts h
      = st.hour_counts h + stack.countP (fun p =>
          anyCell H W (hodContribB lon2d p.1 p.2 h)) := by
  induction stack generalizing st with
  | nil => simp
  | cons p s ih =>
    rw [List.foldl_cons, ih, List.countP_cons]
    by_cases hc : anyCell H W (hodContribB lon2d p.1 p.2 h) = true <;>
      simp [hodStep, hc, hh] <;> omega

/-- Helper: each granule contributes to exactly one of the 24 hour buckets
at a finite cell, and to none at a missing cell. -/
theorem contrib_sum_one (lon2d : ℕ → ℕ → ℚ) (p : ℤ × GridF) (i j : ℕ) :
    ∑ h ∈ Finset.range 24, (if hodContribB lon2d p.1 p.2 h i j then 1 else 0)
      = if (p.2 i j).isSome then 1 else 0 := by
  by_cases hp : (p.2 i j).isSome = true
  · have hb := compute_local_hour_bounds p.1 (lon2d i j)
    have hcond : ∀ h : ℕ, (hodContribB lon2d p.1 p.2 h i j = true)
        ↔ h = (compute_local_hour p.1 (lon2d i j)).toNat := by
      intro h
      simp only [hodContribB, hp, Bool.true_and, decide_eq_true_eq]
      omega
    rw [Finset.sum_congr rfl (fun h _ => if_congr (hcond h) rfl rfl),
      Finset.sum_ite_eq' (Finset.range 24) _ (fun _ => 1),
      if_pos (Finset.mem_range.mpr (by omega)), if_pos hp]
  · rw [if_neg hp]
    refine Finset.sum_eq_zero (fun h _ => ?_)
    simp [hodContribB, hp]

/-- Claim C10: in the `build_hod` accumulator, for every cell the 24
per-cell per-hour counts sum to the number of granules in which that cell
is finite: a finite cell contributes to exactly one bucket per granule and
a missing cell increments no bucket. -/
theorem hod_cell_count_partition (H W : ℕ) (lon2d : ℕ → ℕ → ℚ)
    (stack : List (ℤ × GridF)) (i j : ℕ) :
    ∑ h ∈ Finset.range 24, (hodFold H W lon2d stack).hod_cnt h i j
      = stack.countP (fun p => (p.2 i j).isSome) := by
  simp only [hodFold]
  rw [Finset.sum_congr rfl (fun h hh =>
    hodFold_cnt H W lon2d stack hodInit h i j (Finset.mem_range.mp hh))]
  simp only [hodInit, zero_add]
  induction stack with
  | nil => simp
  | cons p s ih =>
    simp only [List.countP_cons]
    rw [Finset.sum_add_distrib, ih, contrib_sum_one]

/-- Claim C7: with a column-only longitude array, a non-empty stack and a
threshold `≥ 1`, the local hour of every cell is
`floor((end_ts + (lon/360)*86400)/3600) mod 24`, an integer in `[0, 23]`
depending only on the column, and the `build_hod` output mean at each cell
and hour equals (sum of contributions)/(count of contributions) when the
count reaches `min_per_hour`, and is missing otherwise. -/
theorem build_hod_mean_correct (stack : List (ℤ × GridF)) (lon : List ℚ)
    (H W : ℕ) (min_per_hour : ℤ) (h i j : ℕ)
    (hne : stack ≠ []) (hmin : 1 ≤ min_per_hour) (hh : h < 24) :
    ∃ grids counts,
      build_hod H W stack (fun _ c => lon.getD c 0) min_per_hour
        = some (grids, counts) ∧
      (∀ t : ℤ,
        compute_local_hour t (lon.getD j 0)
          = ⌊((t : ℚ) + lon.getD j 0 / 360 * 86400) / 3600⌋ % 24 ∧
        0 ≤ compute_local_hour t (lon.getD j 0) ∧
        compute_local_hour t (lon.getD j 0) < 24) ∧
      (grids h i j =
        if min_per_hour ≤ (stack.countP (fun p =>
            hodContribB (fun _ c => lon.getD c 0) p.1 p.2 h i j) : ℤ) then
          some ((stack.map (fun p =>
              if hodContribB (fun _ c => lon.getD c 0) p.1 p.2 h i j
              then (p.2 i j).getD 0 else 0)).sum
            / (stack.countP (fun p =>
                hodContribB (fun _ c => lon.getD c 0) p.1 p.2 h i j) : ℚ))
        else none) := by
  refine ⟨(fun h i j =>
      if min_per_hour ≤ ((hodFold H W (fun _ c => lon.getD c 0) stack).hod_cnt h i j : ℤ) then
        (if (hodFold H W (fun _ c => lon.getD c 0) stack).hod_cnt h i j = 0 then none
         else some ((hodFold H W (fun _ c => lon.getD c 0) stack).hod_sum h i j
            / ((hodFold H W (fun _ c => lon.getD c 0) stack).hod_cnt h i j : ℚ)))
      else none),
    (hodFold H W (fun _ c => lon.getD c 0) stack).hour_counts, ?_, ?_, ?_⟩
  · rw [build_hod, if_neg (by simp [hne])]
  · intro t
    exact ⟨rfl, compute_local_hour_bounds t (lon.getD j 0)⟩
  · simp only [hodFold]
    rw [hodFold_cnt H W _ stack hodInit h i j hh,
      hodFold_sum H W _ stack hodInit h i j hh]
    simp only [hodInit, zero_add]
    by_cases hcle : min_per_hour ≤ ((stack.countP (fun p =>
        hodContribB (fun _ c => lon.getD c 0) p.1 p.2 h i j)) : ℤ)
    · rw [if_pos hcle, if_pos hcle, if_neg (by omega)]
    · rw [if_neg hcle, if_neg hcle]

/-- Claim C7 witness: the theorem at the spec's example — two granules in
the same bucket with values 3 and 5 and `min_per_hour = 2`. -/
theorem build_hod_mean_correct_witness :
    ([((0 : ℤ), fun _ _ => (some 3 : Cell)), ((1 : ℤ), fun _ _ => (some 5 : Cell))]
       ≠ ([] : List (ℤ × GridF))) ∧ (1 : ℤ) ≤ 2 ∧ 0 < 24 ∧
    (∃ grids counts,
      build_hod 1 1 [((0 : ℤ), fun _ _ => (some 3 : Cell)),
          ((1 : ℤ), fun _ _ => (some 5 : Cell))] (fun _ c => ([0] : List ℚ).getD c 0) 2
        = some (grids, counts) ∧
      (∀ t : ℤ,
        compute_local_hour t (([0] : List ℚ).getD 0 0)
          = ⌊((t : ℚ) + ([0] : List ℚ).getD 0 0 / 360 * 86400) / 3600⌋ % 24 ∧
        0 ≤ compute_local_hour t (([0] : List ℚ).getD 0 0) ∧
        compute_local_hour t (([0] : List ℚ).getD 0 0) < 24) ∧
      (grids 0 0 0 =
        if (2 : ℤ) ≤ (([((0 : ℤ), fun _ _ => (some 3 : Cell)),
            ((1 : ℤ), fun _ _ => (some 5 : Cell))] : List (ℤ × GridF)).countP (fun p =>
            hodContribB (fun _ c => ([0] : List ℚ).getD c 0) p.1 p.2 0 0 0) : ℤ) then
          some ((([((0 : ℤ), fun _ _ => (some 3 : Cell)),
              ((1 : ℤ), fun _ _ => (some 5 : Cell))] : List (ℤ × GridF)).map (fun p =>
              if hodContribB (fun _ c => ([0] : List ℚ).getD c 0) p.1 p.2 0 0 0
              then (p.2 0 0).getD 0 else 0)).sum
            / (([((0 : ℤ), fun _ _ => (some 3 : Cell)),
                ((1 : ℤ), fun _ _ => (some 5 : Cell))] : List (ℤ × GridF)).countP (fun p =>
                hodContribB (fun _ c => ([0] : List ℚ).getD c 0) p.1 p.2 0 0 0) : ℚ))
        else none)) :=
  ⟨List.cons_ne_nil _ _, by decide, by decide,
    build_hod_mean_correct
      [((0 : ℤ), fun _ _ => (some 3 : Cell)), ((1 : ℤ), fun _ _ => (some 5 : Cell))]
      [0] 1 1 2 0 0 0 (List.cons_ne_nil _ _) (by decide) (by decide)⟩

/-- Claim C4 (amended): the 24 global `hour_counts` of `build_hod` count,
per hour, the granules in which at least one cell contributed to that hour
— not the finite (granule, cell) pairs — so their sum equals the number of
(granule, hour) pairs with at least one finite contributing cell. -/
theorem hour_counts_granule_level (H W : ℕ) (stack : List (ℤ × GridF))
    (lon2d : ℕ → ℕ → ℚ) (min_per_hour : ℤ) (hne : stack ≠ []) :
    ∃ grids counts,
      build_hod H W stack lon2d min_per_hour = some (grids, counts) ∧
      (∀ h, h < 24 → counts h = stack.countP
        (fun p => anyCell H W (hodContribB lon2d p.1 p.2 h))) ∧
      ∑ h ∈ Finset.range 24, counts h
        = (stack.map (fun p => ((Finset.range 24).filter
            (fun h => anyCell H W (hodContribB lon2d p.1 p.2 h))).card)).sum := by
  refine ⟨(fun h i j =>
      if min_per_hour ≤ ((hodFold H W lon2d stack).hod_cnt h i j : ℤ) then
        (if (hodFold H W lon2d stack).hod_cnt h i j = 0 then none
         else some ((hodFold H W lon2d stack).hod_sum h i j
            / ((hodFold H W lon2d stack).hod_cnt h i j : ℚ)))
      else none),
    (hodFold H W lon2d stack).hour_counts, ?_, ?_, ?_⟩
  · rw [build_hod, if_neg (by simp [hne])]
  · intro h hh
    simp only [hodFold]
    rw [hodFold_hc H W lon2d stack hodInit h hh]
    simp [hodInit]
  · simp only [hodFold]
    rw [Finset.sum_congr rfl (fun h hh =>
      hodFold_hc H W lon2d stack hodInit h (Finset.mem_range.mp hh))]
    simp only [hodInit, zero_add]
    clear hne
    induction stack with
    | nil => simp
    | cons p s ih =>
      simp only [List.countP_cons, List.map_cons, List.sum_cons]
      rw [Finset.sum_add_distrib, ih, Finset.sum_boole]
      push_cast
      ring

/-- Claim C4 counterexample: one granule on a `1 × 2` grid whose two cells
are both finite and fall in the same hour bucket yields `hour_counts`
summing to 1 (one granule contributed), while the number of finite
(granule, cell) pairs is 2. -/
theorem hour_counts_sum_cex :
    (build_hod 1 2 [((0 : ℤ), fun _ _ => (some 1 : Cell))] (fun _ _ => (0 : ℚ)) 2).map
        (fun pr => ∑ h ∈ Finset.range 24, pr.2 h) = some 1 ∧
    totalFiniteCells 1 2 [((0 : ℤ), fun _ _ => (some 1 : Cell))] = 2 ∧
    (1 : ℕ) ≠ 2 := by
  refine ⟨?_, by decide, by decide⟩
  have hclh : compute_local_hour 0 (0 : ℚ) = 0 := by
    norm_num [compute_local_hour]
  rw [build_hod, if_neg (by simp)]
  simp only [Option.map_some', Option.some_inj]
  simp only [hodFold, List.foldl_cons, List.foldl_nil, hodStep, hodInit,
    anyCell, hodContribB, hclh]
  decide

/-- Claim C4 witness: the amended theorem applied at the counterexample
input. -/
theorem hour_counts_granule_level_witness :
    ([((0 : ℤ), fun _ _ => (some 1 : Cell))] ≠ ([] : List (ℤ × GridF))) ∧
    (∃ grids counts,
      build_hod 1 2 [((0 : ℤ), fun _ _ => (some 1 : Cell))] (fun _ _ => (0 : ℚ)) 2
        = some (grids, counts) ∧
      (∀ h, h < 24 → counts h =
        ([((0 : ℤ), fun _ _ => (some 1 : Cell))] : List (ℤ × GridF)).countP
          (fun p => anyCell 1 2 (hodContribB (fun _ _ => (0 : ℚ)) p.1 p.2 h))) ∧
      ∑ h ∈ Finset.range 24, counts h
        = (([((0 : ℤ), fun _ _ => (some 1 : Cell))] : List (ℤ × GridF)).map
            (fun p => ((Finset.range 24).filter
              (fun h => anyCell 1 2 (hodContribB (fun _ _ => (0 : ℚ)) p.1 p.2 h))).card)).sum) :=
  ⟨List.cons_ne_nil _ _,
    hour_counts_granule_level 1 2 [((0 : ℤ), fun _ _ => (some 1 : Cell))]
      (fun _ _ => (0 : ℚ)) 2 (List.cons_ne_nil _ _)⟩
